import Mathlib

/-!
Verification of the youtube-guidelines-agent repository: a crawler
(`src/crawl.py`) that performs a bounded breadth-first traversal over an
allow-list of hosts and emits a snapshot of pages, and an assembler
(`src/build.py`) that deduplicates the snapshot by URL and renders a single
Markdown document.

Strings are modelled at the character-list level (ASCII-faithful models of the
Python string operations the code uses).  Network fetches and the robots
policy are modelled as oracle functions supplied to the crawl loop; the loop
itself is fuel-indexed so that every invariant is established at every step.
-/

namespace YT

/-- Model of Python `str.lower()` (ASCII level, via `Char.toLower`). -/
def lowerStr (s : String) : String :=
  String.mk (s.data.map Char.toLower)

/-- Characters removed by Python `str.strip()` (ASCII whitespace). -/
def isSpaceChar (c : Char) : Bool :=
  c.isWhitespace

/-- Strip leading and trailing whitespace from a character list. -/
def trimChars (cs : List Char) : List Char :=
  ((cs.dropWhile isSpaceChar).reverse.dropWhile isSpaceChar).reverse

/-- Model of Python `str.strip()`. -/
def pyStrip (s : String) : String :=
  String.mk (trimChars s.data)

/-! ### URL parsing (model of `urllib.parse.urlparse` as used by the code) -/

/-- Characters allowed in a URL scheme (`urllib.parse.scheme_chars`). -/
def isSchemeChar (c : Char) : Bool :=
  c.isAlpha || c.isDigit || c == '+' || c == '-' || c == '.'

/-- Split a character list at the first colon, if any: the part before it and
the part after it. -/
def splitAtColon : List Char → Option (List Char × List Char)
  | [] => none
  | c :: cs =>
    if c == ':' then some ([], cs)
    else
      match splitAtColon cs with
      | some (pre, post) => some (c :: pre, post)
      | none => none

/-- Drop a leading `scheme:` from a URL's characters when the prefix before
the first colon is a nonempty run of scheme characters (as `urlparse` does);
otherwise return the characters unchanged. -/
def afterScheme (cs : List Char) : List Char :=
  match splitAtColon cs with
  | some (pre, post) => if pre ≠ [] ∧ pre.all isSchemeChar then post else cs
  | none => cs

/-- Character that terminates the network-location part of a URL. -/
def isNetlocEnd (c : Char) : Bool :=
  c == '/' || c == '?' || c == '#'

/-- The network location (host[:port]) of a URL's characters: present only
after a literal `//` following the scheme, and running to the first `/`, `?`
or `#`. -/
def netlocOf (cs : List Char) : List Char :=
  match afterScheme cs with
  | '/' :: '/' :: t => t.takeWhile (fun c => !(isNetlocEnd c))
  | _ => []

/-- Model of `urlparse(url).netloc`. -/
def netloc (u : String) : String :=
  String.mk (netlocOf u.data)

/-- The path component of a URL's characters: what follows the netloc (or the
scheme, for URLs with no `//`), up to the first `?` or `#`. -/
def pathOf (cs : List Char) : List Char :=
  let rest := afterScheme cs
  let rest2 :=
    match rest with
    | '/' :: '/' :: t => t.dropWhile (fun c => !(isNetlocEnd c))
    | r => r
  rest2.takeWhile (fun c => !(c == '?') && !(c == '#'))

/-- Model of `urlparse(url).path`. -/
def urlPath (u : String) : String :=
  String.mk (pathOf u.data)

/-! ### Model of `urldefrag` (CPython 3.11 `urllib.parse`)

`urldefrag(url)` with a fragment present does not merely truncate at the
first `#`: it re-parses the URL with `urlparse` and re-serializes it with
`urlunparse`, so the scheme is lowercased and redundant delimiters (an empty
`?`, an empty `;params`) are dropped.  The definitions below follow the
CPython 3.11 source (`urlsplit`, `_splitnetloc`, `_splitparams`,
`urlunsplit`, `urlunparse`, `urldefrag`) for string inputs with
`allow_fragments=True`; the `ValueError` paths for bracketed IPv6 hosts and
the IDNA netloc check are not modelled. -/

/-- Characters stripped from the front of a URL by `urlsplit`
(WHATWG C0 control or space: codepoints 0 to 32). -/
def isC0OrSpace (c : Char) : Bool :=
  decide (c.toNat ≤ 32)

/-- Unsafe bytes removed everywhere in the URL by `urlsplit`
(`_UNSAFE_URL_BYTES_TO_REMOVE`). -/
def isUnsafeURLByte (c : Char) : Bool :=
  c == '\t' || c == '\r' || c == '\n'

/-- The input preprocessing of `urlsplit`: lstrip C0-control-or-space, then
remove tab, CR and LF everywhere. -/
def removeUnsafe (cs : List Char) : List Char :=
  (cs.dropWhile isC0OrSpace).filter (fun c => !(isUnsafeURLByte c))

/-- The scheme detection of `urlsplit`: a colon preceded by a nonempty run of
scheme characters whose first character is an ASCII letter splits off the
scheme, lowercased; otherwise scheme is empty and the URL is unchanged. -/
def schemeSplit (cs : List Char) : List Char × List Char :=
  match splitAtColon cs with
  | some (c :: pre, post) =>
    if c.isAlpha ∧ (c :: pre).all isSchemeChar then ((c :: pre).map Char.toLower, post)
    else ([], cs)
  | _ => ([], cs)

/-- The netloc split of `urlsplit` (`_splitnetloc`): after a leading `//`,
the netloc runs to the first `/`, `?` or `#`; the rest keeps the
delimiter. -/
def netlocSplit (cs : List Char) : List Char × List Char :=
  match cs with
  | '/' :: '/' :: t =>
    (t.takeWhile (fun c => !(isNetlocEnd c)), t.dropWhile (fun c => !(isNetlocEnd c)))
  | _ => ([], cs)

/-- Model of `url.split(d, 1)` guarded by `d in url`: split at the first
occurrence of `d` when present, otherwise keep the whole string with an empty
second component. -/
def splitOnceAt (d : Char) (cs : List Char) : List Char × List Char :=
  if d ∈ cs then
    (cs.takeWhile (fun c => !(c == d)), (cs.dropWhile (fun c => !(c == d))).drop 1)
  else (cs, [])

/-- The schemes for which `urlparse` splits `;params` from the path
(`uses_params`, CPython 3.11). -/
def usesParamsList : List String :=
  ["", "ftp", "hdl", "prospero", "http", "imap", "https", "shttp", "rtsp",
   "rtsps", "rtspu", "sip", "sips", "mms", "sftp", "tel"]

/-- The schemes treated as using a network location by `urlunsplit`
(`uses_netloc`, CPython 3.11). -/
def usesNetlocList : List String :=
  ["", "ftp", "http", "gopher", "nntp", "telnet", "imap", "wais", "file",
   "mms", "https", "shttp", "snews", "prospero", "rtsp", "rtsps", "rtspu",
   "rsync", "svn", "svn+ssh", "sftp", "nfs", "git", "git+ssh", "ws", "wss"]

/-- `_splitparams`: split the path at the first `;` at or after the last `/`
(or the first `;` overall when the path has no `/`); no split when that
region has no `;`. -/
def splitparamsChars (p : List Char) : List Char × List Char :=
  if '/' ∈ p then
    if ';' ∈ (p.reverse.takeWhile (fun c => !(c == '/'))).reverse then
      ((p.reverse.dropWhile (fun c => !(c == '/'))).reverse
          ++ ((p.reverse.takeWhile (fun c => !(c == '/'))).reverse.takeWhile
            (fun c => !(c == ';'))),
       (((p.reverse.takeWhile (fun c => !(c == '/'))).reverse.dropWhile
            (fun c => !(c == ';'))).drop 1))
    else (p, [])
  else
    (p.takeWhile (fun c => !(c == ';')), (p.dropWhile (fun c => !(c == ';'))).drop 1)

/-- The six components returned by `urlparse`. -/
structure UParse where
  scheme : List Char
  netloc : List Char
  path : List Char
  params : List Char
  query : List Char
  fragment : List Char

/-- `urlparse` on a string with `allow_fragments=True` and no default
scheme: preprocessing, scheme split, netloc split, fragment split at the
first `#`, query split at the first `?`, then the params split for schemes
in `uses_params`. -/
def urlparseChars (cs : List Char) : UParse :=
  let s1 := schemeSplit (removeUnsafe cs)
  let s2 := netlocSplit s1.2
  let s3 := splitOnceAt '#' s2.2
  let s4 := splitOnceAt '?' s3.1
  let s5 :=
    if String.mk s1.1 ∈ usesParamsList ∧ ';' ∈ s4.1 then splitparamsChars s4.1
    else (s4.1, [])
  ⟨s1.1, s2.1, s5.1, s5.2, s4.2, s3.2⟩

/-- `urlunsplit`: reassemble scheme, netloc, path, query and fragment,
re-adding delimiters only for nonempty components. -/
def urlunsplitChars (scheme netloc path query fragment : List Char) : List Char :=
  let p1 :=
    if netloc ≠ [] ∨ (scheme ≠ [] ∧ String.mk scheme ∈ usesNetlocList
        ∧ path.take 2 ≠ ['/', '/']) then
      '/' :: '/' :: (netloc ++ (if path ≠ [] ∧ path.take 1 ≠ ['/'] then '/' :: path else path))
    else path
  let p2 := if scheme ≠ [] then scheme ++ ':' :: p1 else p1
  let p3 := if query ≠ [] then p2 ++ '?' :: query else p2
  if fragment ≠ [] then p3 ++ '#' :: fragment else p3

/-- `urlunparse`: re-join `;params` to the path when nonempty, then
`urlunsplit`. -/
def urlunparseChars (r : UParse) : List Char :=
  urlunsplitChars r.scheme r.netloc
    (if r.params ≠ [] then r.path ++ ';' :: r.params else r.path) r.query r.fragment

/-! ### `src/crawl.py` -/

/-- Model of `urldefrag(u)[0]`: when the URL contains `#`, parse it with
`urlparse` and re-serialize it with `urlunparse` and an empty fragment;
otherwise return it unchanged. -/
def urldefragStr (u : String) : String :=
  if '#' ∈ u.data then
    String.mk (urlunparseChars { urlparseChars u.data with fragment := [] })
  else u

/-- `normalize_url` from `src/crawl.py`: strip the fragment, then trim
surrounding whitespace. -/
def normalize_url (u : String) : String :=
  pyStrip (urldefragStr u)

/-- `same_host` from `src/crawl.py`: the URL's netloc, lowercased, must be a
member of the allowed-host set (modelled as a list). -/
def same_host (url : String) (allowed_hosts : List String) : Bool :=
  allowed_hosts.contains (lowerStr (netloc url))

/-- Bool-valued substring containment, modelling Python `needle in hay`. -/
def strContains (hay needle : String) : Bool :=
  decide (needle.data <:+: hay.data)

/-- Bool-valued character-list test used for `str.startswith`. -/
def strStartsWith (s pre : String) : Bool :=
  pre.data.isPrefixOf s.data

/-- `is_probably_policy_page` from `src/crawl.py`: host-specific path
classifier. -/
def is_probably_policy_page (url : String) : Bool :=
  let host := lowerStr (netloc url)
  let path := lowerStr (urlPath url)
  if host == "support.google.com" then
    strStartsWith path "/youtube/"
  else if host == "www.youtube.com" || host == "youtube.com" then
    strContains path "/creators/" || strContains path "/howyoutubeworks/"
  else
    false

/-- A page record emitted by the crawler: the dict appended to `pages` in
`crawl` (all three keys always present). -/
structure CPage where
  url : String
  title : String
  text : String
deriving DecidableEq, Repr

/-- Result of one successful fetch+parse of a URL: the extracted title and
text, and the (already normalized) link targets found in the HTML.  A failed
fetch (network error, non-200 status, non-HTML content type) is `none` at the
call site. -/
structure FetchResult where
  title : String
  text : String
  links : List String
deriving Repr

/-- The observable outcome of a crawl run: the emitted pages (the snapshot's
`pages` list, in order) and the list of URLs for which an HTTP request was
issued, in order. -/
structure CrawlResult where
  pages : List CPage
  fetched : List String
deriving Repr

/-- The `while` loop of `crawl` in `src/crawl.py`, fuel-indexed.  State:
frontier queue, visited set `seen` (modelled as a list), accumulated `pages`,
and the accumulated list of URLs actually requested.  `fetch` and `robots`
are oracles for the network and the robots policy; `allowed` and `cand` are
the host filter and the page classifier. -/
def crawlLoop (fetch : String → Option FetchResult) (allowed : String → Bool)
    (cand : String → Bool) (robots : String → Bool) (maxPages : Nat) :
    Nat → List String → List String → List CPage → List String → CrawlResult
  | 0, _, _, pages, fetched => ⟨pages, fetched⟩
  | _ + 1, [], _, pages, fetched => ⟨pages, fetched⟩
  | fuel + 1, url :: rest, seen, pages, fetched =>
    if maxPages ≤ pages.length then ⟨pages, fetched⟩
    else if url ∈ seen then
      crawlLoop fetch allowed cand robots maxPages fuel rest seen pages fetched
    else
      if allowed url = true then
        if cand url = true then
          if robots url = true then
            match fetch url with
            | none =>
              crawlLoop fetch allowed cand robots maxPages fuel rest (url :: seen) pages
                (fetched ++ [url])
            | some r =>
              crawlLoop fetch allowed cand robots maxPages fuel
                (rest ++ r.links.filter (fun l => !((url :: seen).contains l))) (url :: seen)
                (pages ++ [CPage.mk url r.title r.text]) (fetched ++ [url])
          else
            crawlLoop fetch allowed cand robots maxPages fuel rest (url :: seen) pages fetched
        else
          crawlLoop fetch allowed cand robots maxPages fuel rest (url :: seen) pages fetched
      else
        crawlLoop fetch allowed cand robots maxPages fuel rest (url :: seen) pages fetched

/-- `crawl` from `src/crawl.py` (observable core): start from the normalized
seed URL with empty visited set and no pages, using `same_host` against
`allowed_hosts` and `is_probably_policy_page` as in the source. -/
def crawl (fetch : String → Option FetchResult) (robots : String → Bool)
    (start_url : String) (maxPages : Nat) (allowed_hosts : List String)
    (fuel : Nat) : CrawlResult :=
  crawlLoop fetch (fun u => same_host u allowed_hosts) is_probably_policy_page
    robots maxPages fuel [normalize_url start_url] [] [] []

/-! ### HTML model and the title part of `extract_main_text` -/

/-- Parsed HTML node: a text node or an element with a tag and children. -/
inductive HNode where
  | txt : String → HNode
  | elem : String → List HNode → HNode

mutual

/-- First element with tag `title` in document (pre)order, within one node:
model of `soup.title` restricted to this node's subtree. -/
def findTitleN : HNode → Option HNode
  | .txt _ => none
  | .elem tag cs => if tag == "title" then some (.elem tag cs) else findTitleL cs

/-- First element with tag `title` in document (pre)order, in a node list. -/
def findTitleL : List HNode → Option HNode
  | [] => none
  | n :: ns =>
    match findTitleN n with
    | some t => some t
    | none => findTitleL ns

end

mutual

/-- The stripped, nonempty text segments of a node's subtree, in order:
model of BeautifulSoup `_all_strings(strip=True)`. -/
def stripsN : HNode → List String
  | .txt s => if pyStrip s == "" then [] else [pyStrip s]
  | .elem _ cs => stripsL cs

/-- The stripped, nonempty text segments of a node list, in order. -/
def stripsL : List HNode → List String
  | [] => []
  | n :: ns => stripsN n ++ stripsL ns

end

/-- Model of `node.get_text(strip=True)`: concatenation of the stripped,
nonempty text segments. -/
def getTextStrip (n : HNode) : String :=
  String.join (stripsN n)

/-- The title computed by `extract_main_text` in `src/crawl.py` (line 63):
`soup.title.get_text(strip=True) if soup.title else ""`, over a parsed
document given as its top-level node list. -/
def extract_title (doc : List HNode) : String :=
  match findTitleL doc with
  | some t => getTextStrip t
  | none => ""

/-! ### `src/build.py` -/

/-- Word character for the regex class `\w` (ASCII level): alphanumeric or
underscore. -/
def isWordChar (c : Char) : Bool :=
  c.isAlphanum || c == '_'

/-- Character kept by `re.sub(r"[^\w\s-]", "", s)`: word character,
whitespace, or hyphen. -/
def keepChar (c : Char) : Bool :=
  isWordChar c || c.isWhitespace || c == '-'

/-- Model of `re.sub(r"\s+", "-", s)`: replace each maximal whitespace run by
a single hyphen.  The flag records whether we are inside a run whose hyphen
has already been emitted. -/
def collapseWsAux : List Char → Bool → List Char
  | [], _ => []
  | c :: cs, inRun =>
    if c.isWhitespace then
      if inRun then collapseWsAux cs true
      else '-' :: collapseWsAux cs true
    else
      c :: collapseWsAux cs false

/-- `slugify` from `src/build.py`: strip, lowercase, delete characters that
are not word characters, whitespace or hyphens, collapse whitespace runs to a
single hyphen, then return the first 80 characters, or `"section"` if the
result is empty. -/
def slugify (s : String) : String :=
  if collapseWsAux ((lowerStr (pyStrip s)).data.filter keepChar) false = [] then "section"
  else String.mk ((collapseWsAux ((lowerStr (pyStrip s)).data.filter keepChar) false).take 80)

/-- Dropping a prefix by a predicate never lengthens a list. -/
theorem lenDropWhile_le (p : Char → Bool) (l : List Char) :
    (l.dropWhile p).length ≤ l.length := by
  induction l with
  | nil => simp [List.dropWhile]
  | cons a t ih =>
    by_cases h : p a
    · simp only [List.dropWhile, h]
      exact Nat.le_succ_of_le ih
    · simp [List.dropWhile, h]

/-- Collapse each maximal whitespace run to a single hyphen, written by
direct recursion on runs; used to state the spec's description of slugify. -/
def collapseRuns : List Char → List Char
  | [] => []
  | c :: cs =>
    if c.isWhitespace then '-' :: collapseRuns (cs.dropWhile Char.isWhitespace)
    else c :: collapseRuns cs
termination_by l => l.length
decreasing_by
  all_goals simp_wf
  all_goals exact Nat.lt_succ_of_le (lenDropWhile_le _ _)

/-- Modelled from the spec (claim wording for slugify): lowercase the input,
strip characters that are not word characters, whitespace, or hyphens,
collapse each whitespace run to a single hyphen, truncate to 80 characters,
and substitute `"section"` when the result is empty.  Note: no initial trim
of surrounding whitespace. -/
def slugifySpec (s : String) : String :=
  if (collapseRuns ((lowerStr s).data.filter keepChar)).take 80 = [] then "section"
  else String.mk ((collapseRuns ((lowerStr s).data.filter keepChar)).take 80)

/-- A page record as read from the snapshot JSON by the assembler: each key
may be missing (`none`). -/
structure BPage where
  url : Option String
  title : Option String
  text : Option String
deriving DecidableEq, Repr

/-- The snapshot dict as read from JSON by the assembler: each key may be
missing. -/
structure SnapshotData where
  start_url : Option String
  fetched_at_utc : Option String
  pages : Option (List BPage)
deriving DecidableEq, Repr

/-- Model of Python `p.get(k, "")` for a string field. -/
def getStr (o : Option String) : String :=
  o.getD ""

/-- Model of Python `p.get(k) or d`: the default is used when the key is
missing or its value is falsy (the empty string). -/
def pyOr (o : Option String) (d : String) : String :=
  match o with
  | some s => if s = "" then d else s
  | none => d

/-- The URL key of an assembler page record, with `""` for a missing key:
`p.get("url", "")`. -/
def pageUrl (p : BPage) : String :=
  getStr p.url

/-- The deduplication loop of `build_md` (lines 25-32 of `src/build.py`):
keep a page when its URL is nonempty and not yet seen, in order. -/
def dedupPages : List BPage → List String → List BPage
  | [], _ => []
  | p :: ps, seen =>
    if pageUrl p ≠ "" ∧ ¬ (pageUrl p ∈ seen) then p :: dedupPages ps (pageUrl p :: seen)
    else dedupPages ps seen

/-- The displayed title of a page in `build_md`:
`(p.get("title") or "Untitled").strip()`. -/
def pageTitle (p : BPage) : String :=
  pyStrip (pyOr p.title "Untitled")

/-- One table-of-contents line of `build_md`: `- [title](#anchor)`. -/
def tocEntry (p : BPage) : String :=
  "- [" ++ pageTitle p ++ "](#" ++ slugify (pageTitle p) ++ ")"

/-- The lines of one per-page section of `build_md` (lines 54-66 of
`src/build.py`): heading, source line, blank, body text, blank, rule,
blank. -/
def sectionLines (p : BPage) : List String :=
  ["## " ++ pageTitle p,
   "_Quelle_: " ++ pyStrip (getStr p.url),
   "",
   pyStrip (pyOr p.text ""),
   "",
   "---",
   ""]

/-- The fixed header lines of `build_md`: top heading, build date, start URL
and the table-of-contents heading. -/
def headerLines (data : SnapshotData) : List String :=
  ["# YouTube Creator Policy Guidelines – Master Snapshot",
   "",
   "Build-Datum (UTC): **" ++ getStr data.fetched_at_utc ++ "**",
   "Start-URL: " ++ getStr data.start_url,
   "",
   "## Inhaltsverzeichnis",
   ""]

/-- All lines of the document produced by `build_md`, in order. -/
def buildLines (data : SnapshotData) : List String :=
  let uniq := dedupPages ((data.pages).getD []) []
  headerLines data ++ uniq.map tocEntry ++ ["", "---", ""]
    ++ uniq.flatMap sectionLines

/-- `build_md` from `src/build.py`: the document text, lines joined by
newlines. -/
def build_md (data : SnapshotData) : String :=
  "\n".intercalate (buildLines data)

/-! ### Helper lemmas -/

/-- `takeWhile` keeps a list all of whose elements satisfy the predicate. -/
theorem takeWhile_eq_self_of_all {p : Char → Bool} :
    ∀ {l : List Char}, (∀ c ∈ l, p c = true) → l.takeWhile p = l := by
  intro l
  induction l with
  | nil => intro _; rfl
  | cons a t ih =>
    intro h
    have ha : p a = true := h a (List.mem_cons_self a t)
    simp [List.takeWhile_cons, ha, ih (fun c hc => h c (List.mem_cons_of_mem a hc))]

/-- `takeWhile` passes over a fully satisfying prefix. -/
theorem takeWhile_append_of_all {p : Char → Bool} :
    ∀ {l1 : List Char} (l2 : List Char), (∀ c ∈ l1, p c = true) →
      (l1 ++ l2).takeWhile p = l1 ++ l2.takeWhile p := by
  intro l1
  induction l1 with
  | nil => intro l2 _; rfl
  | cons a t ih =>
    intro l2 h
    have ha : p a = true := h a (List.mem_cons_self a t)
    simp [List.cons_append, List.takeWhile_cons, ha,
      ih l2 (fun c hc => h c (List.mem_cons_of_mem a hc))]

/-! ### Claim C4: slugify (corrected: the code trims before anything else) -/

/-- After an emitted hyphen, skipping the rest of the whitespace run is the
same as continuing in in-run state. -/
theorem collapseWsAux_true_eq :
    ∀ cs : List Char,
      collapseWsAux cs true = collapseWsAux (cs.dropWhile Char.isWhitespace) false := by
  intro cs
  induction cs with
  | nil => rfl
  | cons c cs ih =>
    by_cases h : c.isWhitespace
    · simp only [collapseWsAux, h, if_true, List.dropWhile_cons, ih]
    · simp only [collapseWsAux, h, if_false, List.dropWhile_cons]
      simp [h]

/-- The run-recursion form of whitespace collapsing agrees with the
flag-based model of `re.sub(r"\s+", "-", s)`. -/
theorem collapseRuns_eq_aux : ∀ l : List Char, collapseRuns l = collapseWsAux l false := by
  intro l
  induction l using collapseRuns.induct with
  | case1 => simp [collapseRuns, collapseWsAux]
  | case2 c cs h ih =>
    rw [collapseRuns, if_pos h, ih, ← collapseWsAux_true_eq]
    simp [collapseWsAux, h]
  | case3 c cs h ih =>
    rw [collapseRuns, if_neg h, ih]
    simp [collapseWsAux, h]

/-- Counterexample for claim C4 as stated: `slugify` first trims surrounding
whitespace, while the claim's composition of steps does not, so on the input
`" a "` the code yields `"a"` but the claim's step list yields `"-a-"`. -/
theorem slugify_spec_cex :
    slugify " a " = "a" ∧ slugifySpec " a " = "-a-" ∧
      slugify " a " ≠ slugifySpec " a " := by
  have hs : slugifySpec " a " = "-a-" := by
    unfold slugifySpec
    rw [collapseRuns_eq_aux]
    decide
  refine ⟨rfl, hs, ?_⟩
  rw [hs]
  decide

/-- Claim C4, amended: `slugify` equals the claim's composition of steps
(lowercase, strip non word/whitespace/hyphen characters, collapse whitespace
runs to single hyphens, truncate to 80, default to `"section"` when empty)
applied to the whitespace-trimmed input — the code trims surrounding
whitespace first, which the claim omitted — and the two concrete examples
hold. -/
theorem slugify_amended :
    (∀ s : String, slugify s = slugifySpec (pyStrip s)) ∧
      slugify "Community Guidelines!!" = "community-guidelines" ∧
      slugify "!!!" = "section" := by
  refine ⟨?_, rfl, rfl⟩
  intro s
  show slugify s = slugifySpec (pyStrip s)
  unfold slugify slugifySpec
  rw [collapseRuns_eq_aux]
  generalize collapseWsAux ((lowerStr (pyStrip s)).data.filter keepChar) false = a
  cases a with
  | nil => rfl
  | cons c t =>
    have h1 : (c :: t) ≠ ([] : List Char) := by simp
    have h2 : ((c :: t).take 80) ≠ ([] : List Char) := by simp [List.take_succ_cons]
    rw [if_neg h1, if_neg h2]

/-! ### Claim C6: the host allow-list check (corrected: allow-list entries
are matched verbatim, only the URL's host is lowercased) -/

/-- Splitting at the first colon finds a colon-free prefix. -/
theorem splitAtColon_append {pre : List Char} (post : List Char)
    (h : ∀ c ∈ pre, (c == ':') = false) :
    splitAtColon (pre ++ ':' :: post) = some (pre, post) := by
  induction pre with
  | nil => simp [splitAtColon]
  | cons a t ih =>
    have ha : (a == ':') = false := h a (List.mem_cons_self a t)
    simp only [List.cons_append, splitAtColon, ha, Bool.false_eq_true, if_false,
      List.append_eq, ih (fun c hc => h c (List.mem_cons_of_mem a hc))]

/-- A scheme character is not a colon. -/
theorem isSchemeChar_ne_colon {c : Char} (h : isSchemeChar c = true) :
    (c == ':') = false := by
  cases hc : c == ':' with
  | false => rfl
  | true =>
    have : c = ':' := beq_iff_eq.mp hc
    subst this
    exact absurd h (by decide)

/-- The netloc of a well-formed URL `scheme://host[rest]` is exactly the host
part, when the host contains no `/`, `?` or `#` and the rest is empty or
starts with one of those delimiters. -/
theorem netloc_concat (scheme host rest : String)
    (h1 : scheme.data ≠ []) (h2 : ∀ c ∈ scheme.data, isSchemeChar c = true)
    (h3 : ∀ c ∈ host.data, isNetlocEnd c = false)
    (h4 : rest.data = [] ∨ ∃ c t, rest.data = c :: t ∧ isNetlocEnd c = true) :
    netloc (scheme ++ "://" ++ host ++ rest) = host := by
  have hdata : (scheme ++ "://" ++ host ++ rest).data
      = scheme.data ++ ':' :: '/' :: '/' :: (host.data ++ rest.data) := by
    show ((scheme.data ++ [':', '/', '/']) ++ host.data) ++ rest.data
      = scheme.data ++ ':' :: '/' :: '/' :: (host.data ++ rest.data)
    simp
  have hsplit : splitAtColon ((scheme ++ "://" ++ host ++ rest).data)
      = some (scheme.data, '/' :: '/' :: (host.data ++ rest.data)) := by
    rw [hdata]
    exact splitAtColon_append _ (fun c hc => isSchemeChar_ne_colon (h2 c hc))
  have hafter : afterScheme ((scheme ++ "://" ++ host ++ rest).data)
      = '/' :: '/' :: (host.data ++ rest.data) := by
    unfold afterScheme
    rw [hsplit]
    exact if_pos ⟨h1, List.all_eq_true.mpr h2⟩
  have hnet : netlocOf ((scheme ++ "://" ++ host ++ rest).data) = host.data := by
    unfold netlocOf
    rw [hafter]
    show List.takeWhile _ (host.data ++ rest.data) = host.data
    rw [takeWhile_append_of_all _ (fun c hc => by rw [h3 c hc]; rfl)]
    rcases h4 with h4 | ⟨c, t, hres, hc⟩
    · rw [h4]
      simp
    · rw [hres]
      simp [List.takeWhile_cons, hc]
  show String.mk (netlocOf ((scheme ++ "://" ++ host ++ rest).data)) = host
  rw [hnet]

/-- Counterexample for claim C6 as stated: `same_host` lowercases only the
URL's host, not the allow-list entries, so changing the letter-case of an
allow-list entry changes the decision. -/
theorem same_host_case_cex :
    same_host "https://youtube.com/watch" ["youtube.com"] = true ∧
      same_host "https://youtube.com/watch" ["YOUTUBE.COM"] = false := by
  constructor <;> decide

/-- Claim C6, amended: `same_host` lowercases the URL's host and tests exact
membership of the result in the allow-list: for a well-formed URL
`scheme://host[rest]` the decision depends only on the lowercased host (so it
is case-insensitive in the URL's host, but allow-list entries are matched
verbatim and must be supplied lowercase); a lowercase-host URL with an
uppercased allow-list matches case-insensitively on the URL side, and a
subdomain of an allowed host does not match. -/
theorem same_host_amended :
    (∀ (scheme host rest : String) (hosts : List String),
        scheme.data ≠ [] → (∀ c ∈ scheme.data, isSchemeChar c = true) →
        (∀ c ∈ host.data, isNetlocEnd c = false) →
        (rest.data = [] ∨ ∃ c t, rest.data = c :: t ∧ isNetlocEnd c = true) →
        same_host (scheme ++ "://" ++ host ++ rest) hosts
          = hosts.contains (lowerStr host)) ∧
      same_host "https://YouTube.COM/watch" ["youtube.com"] = true ∧
      same_host "https://evil.youtube.com/watch" ["youtube.com"] = false := by
  refine ⟨?_, by decide, by decide⟩
  intro scheme host rest hosts h1 h2 h3 h4
  show hosts.contains (lowerStr (netloc (scheme ++ "://" ++ host ++ rest)))
    = hosts.contains (lowerStr host)
  rw [netloc_concat scheme host rest h1 h2 h3 h4]

/-- Witness for the amended C6 at a concrete URL with a mixed-case host. -/
theorem same_host_amended_witness :
    same_host ("https" ++ "://" ++ "YouTube.com" ++ "/watch") ["youtube.com"]
      = List.contains ["youtube.com"] (lowerStr "YouTube.com") :=
  same_host_amended.1 "https" "YouTube.com" "/watch" ["youtube.com"]
    (by decide) (by decide) (by decide)
    (Or.inr ⟨'/', "watch".data, by decide, by decide⟩)

/-! ### Claim C7: URL normalization (corrected: defragmenting re-serializes
the URL, lowercasing the scheme and dropping an empty query marker) -/

/-- Characters different from `d` satisfy the not-equal test. -/
theorem not_mem_pred {d : Char} {l : List Char} (h : d ∉ l) :
    ∀ c ∈ l, (!(c == d)) = true := by
  intro c hc
  cases hb : c == d with
  | false => rfl
  | true => exact absurd (beq_iff_eq.mp hb ▸ hc) h

/-- `dropWhile` passes over a fully satisfying prefix. -/
theorem dropWhile_append_of_all {p : Char → Bool} :
    ∀ {l1 : List Char} (l2 : List Char), (∀ c ∈ l1, p c = true) →
      (l1 ++ l2).dropWhile p = l2.dropWhile p := by
  intro l1
  induction l1 with
  | nil => intro l2 _; rfl
  | cons a t ih =>
    intro l2 h
    have ha : p a = true := h a (List.mem_cons_self a t)
    simp [List.cons_append, List.dropWhile_cons, ha,
      ih l2 (fun c hc => h c (List.mem_cons_of_mem a hc))]

/-- A map that fixes every element of a list is the identity on it. -/
theorem map_eq_self_of_all {f : Char → Char} :
    ∀ {l : List Char}, (∀ c ∈ l, f c = c) → l.map f = l := by
  intro l
  induction l with
  | nil => intro _; rfl
  | cons a t ih =>
    intro h
    rw [List.map_cons, h a (List.mem_cons_self a t),
      ih (fun c hc => h c (List.mem_cons_of_mem a hc))]

/-- Scheme characters are not among the unsafe bytes removed by
`urlsplit`. -/
theorem isSchemeChar_not_unsafe {c : Char} (h : isSchemeChar c = true) :
    (!(isUnsafeURLByte c)) = true := by
  cases hu : isUnsafeURLByte c with
  | false => rfl
  | true =>
    exfalso
    have hor : (c = '\t' ∨ c = '\r') ∨ c = '\n' := by
      have h2 := hu
      unfold isUnsafeURLByte at h2
      simpa using h2
    rcases hor with (h1 | h1) | h1 <;> exact absurd h (h1 ▸ by decide)

/-- The scheme split on a URL beginning with a valid, already-lowercase
scheme and a colon yields exactly that scheme and the rest. -/
theorem schemeSplit_concat (sd rest : List Char) (c0 : Char) (st : List Char)
    (hsd : sd = c0 :: st) (hc0 : c0.isAlpha = true)
    (hsa : ∀ c ∈ sd, isSchemeChar c = true)
    (hlow : ∀ c ∈ sd, c.toLower = c) :
    schemeSplit (sd ++ ':' :: rest) = (sd, rest) := by
  subst hsd
  unfold schemeSplit
  rw [splitAtColon_append rest (fun c hc => isSchemeChar_ne_colon (hsa c hc))]
  show (if c0.isAlpha ∧ (c0 :: st).all isSchemeChar
      then ((c0 :: st).map Char.toLower, rest)
      else ([], (c0 :: st) ++ ':' :: rest)) = (c0 :: st, rest)
  rw [if_pos ⟨hc0, List.all_eq_true.mpr hsa⟩, map_eq_self_of_all hlow]

/-- The netloc split after `//` stops exactly at the first delimiter. -/
theorem netlocSplit_concat (nl rest : List Char)
    (hnlc : ∀ c ∈ nl, isNetlocEnd c = false)
    (hrest : rest = [] ∨ ∃ c t, rest = c :: t ∧ isNetlocEnd c = true) :
    netlocSplit ('/' :: '/' :: (nl ++ rest)) = (nl, rest) := by
  unfold netlocSplit
  show ((nl ++ rest).takeWhile (fun c => !(isNetlocEnd c)),
        (nl ++ rest).dropWhile (fun c => !(isNetlocEnd c))) = (nl, rest)
  have hp : ∀ c ∈ nl, (!(isNetlocEnd c)) = true := fun c hc => by rw [hnlc c hc]; rfl
  rw [takeWhile_append_of_all _ hp, dropWhile_append_of_all _ hp]
  rcases hrest with h | ⟨c, t, hr, hc⟩
  · rw [h]
    simp
  · rw [hr]
    simp [List.takeWhile_cons, List.dropWhile_cons, hc]

/-- Splitting once at a delimiter absent from the first part cuts exactly
there. -/
theorem splitOnceAt_concat (d : Char) (a b : List Char) (hda : d ∉ a) :
    splitOnceAt d (a ++ d :: b) = (a, b) := by
  unfold splitOnceAt
  rw [if_pos (by simp)]
  rw [takeWhile_append_of_all _ (not_mem_pred hda),
    dropWhile_append_of_all _ (not_mem_pred hda)]
  simp [List.takeWhile_cons, List.dropWhile_cons]

/-- Counterexample for claim C7 as stated: `urldefrag` on a URL with a
fragment re-parses and re-serializes the URL, so `normalize_url` lowercases
the scheme (and also drops an empty `?`) — it does not preserve everything
but the fragment. -/
theorem normalize_url_cex :
    normalize_url ("HTTP://a/b" ++ "#" ++ "f") ≠ pyStrip "HTTP://a/b" ∧
      normalize_url ("HTTP://a/b" ++ "#" ++ "f") = "http://a/b" ∧
      normalize_url ("http://a/b?" ++ "#" ++ "f") = "http://a/b" := by
  refine ⟨by decide, by decide, by decide⟩

/-- Claim C7, amended: `normalize_url` trims surrounding whitespace, and for
URLs without a `#` changes nothing else; for URLs with a fragment it removes
the fragment by re-parsing and re-serializing the URL, which in addition
lowercases the scheme and drops redundant delimiters (such as an empty `?`),
while for a well-formed absolute URL with a lowercase scheme the host, path
and a nonempty query string are preserved unchanged. -/
theorem normalize_url_amended :
    (∀ u : String, '#' ∉ u.data → normalize_url u = pyStrip u) ∧
      (∀ (scheme host path query frag : String) (c0 : Char) (st pt : List Char),
        scheme.data = c0 :: st → c0.isAlpha = true → isC0OrSpace c0 = false →
        (∀ c ∈ scheme.data, isSchemeChar c = true) →
        (∀ c ∈ scheme.data, c.toLower = c) →
        host.data ≠ [] → (∀ c ∈ host.data, isNetlocEnd c = false) →
        (∀ c ∈ host.data, isUnsafeURLByte c = false) →
        path.data = '/' :: pt → '?' ∉ path.data → '#' ∉ path.data →
        ';' ∉ path.data → (∀ c ∈ path.data, isUnsafeURLByte c = false) →
        query.data ≠ [] → '#' ∉ query.data →
        (∀ c ∈ query.data, isUnsafeURLByte c = false) →
        normalize_url (scheme ++ "://" ++ host ++ path ++ "?" ++ query ++ "#" ++ frag)
          = pyStrip (scheme ++ "://" ++ host ++ path ++ "?" ++ query)) ∧
      normalize_url "HTTP://a/b#f" = "http://a/b" ∧
      normalize_url "http://a/b?#f" = "http://a/b" := by
  refine ⟨?_, ?_, by decide, by decide⟩
  · intro u h
    show pyStrip (urldefragStr u) = pyStrip u
    unfold urldefragStr
    rw [if_neg h]
  · intro scheme host path query frag c0 st pt hsd hc0 hc0c hsa hlow hhost0 hhostc
      hhu hpd hpq hph hpsemi hpu hq0 hqh hqu
    have hdata : (scheme ++ "://" ++ host ++ path ++ "?" ++ query ++ "#" ++ frag).data
        = scheme.data ++ ':' :: '/' :: '/'
          :: (host.data ++ (path.data ++ '?' :: (query.data ++ '#' :: frag.data))) := by
      show (((((((scheme.data ++ [':', '/', '/']) ++ host.data) ++ path.data)
        ++ ['?']) ++ query.data) ++ ['#']) ++ frag.data) = _
      simp
    have hmem : '#' ∈ (scheme ++ "://" ++ host ++ path ++ "?" ++ query ++ "#" ++ frag).data := by
      rw [hdata]
      simp
    have hremove : removeUnsafe ((scheme ++ "://" ++ host ++ path ++ "?" ++ query
          ++ "#" ++ frag).data)
        = scheme.data ++ ':' :: '/' :: '/'
          :: (host.data ++ (path.data ++ '?' :: (query.data
            ++ '#' :: frag.data.filter (fun c => !(isUnsafeURLByte c))))) := by
      unfold removeUnsafe
      rw [hdata, hsd, List.cons_append, List.dropWhile_cons]
      simp only [hc0c, Bool.false_eq_true, if_false]
      rw [← List.cons_append, ← hsd]
      rw [List.filter_append,
        List.filter_eq_self.mpr (fun c hc => isSchemeChar_not_unsafe (hsa c hc)),
        List.filter_cons_of_pos (by rfl), List.filter_cons_of_pos (by rfl),
        List.filter_cons_of_pos (by rfl), List.filter_append,
        List.filter_eq_self.mpr (fun c hc => by rw [hhu c hc]; rfl),
        List.filter_append,
        List.filter_eq_self.mpr (fun c hc => by rw [hpu c hc]; rfl),
        List.filter_cons_of_pos (by rfl), List.filter_append,
        List.filter_eq_self.mpr (fun c hc => by rw [hqu c hc]; rfl),
        List.filter_cons_of_pos (by rfl)]
    have hda : '#' ∉ path.data ++ '?' :: query.data := by
      intro hmem2
      rcases List.mem_append.mp hmem2 with h | h
      · exact hph h
      · rcases List.mem_cons.mp h with h | h
        · exact absurd h (by decide)
        · exact hqh h
    have hfragSplit : splitOnceAt '#' (path.data ++ '?' :: (query.data
          ++ '#' :: frag.data.filter (fun c => !(isUnsafeURLByte c))))
        = (path.data ++ '?' :: query.data,
           frag.data.filter (fun c => !(isUnsafeURLByte c))) := by
      have h := splitOnceAt_concat '#' (path.data ++ '?' :: query.data)
        (frag.data.filter (fun c => !(isUnsafeURLByte c))) hda
      simpa using h
    have hparse : urlparseChars ((scheme ++ "://" ++ host ++ path ++ "?" ++ query
          ++ "#" ++ frag).data)
        = ⟨scheme.data, host.data, path.data, [], query.data,
           frag.data.filter (fun c => !(isUnsafeURLByte c))⟩ := by
      unfold urlparseChars
      rw [hremove]
      rw [schemeSplit_concat scheme.data _ c0 st hsd hc0 hsa hlow]
      dsimp only
      rw [netlocSplit_concat host.data _ hhostc
        (Or.inr ⟨'/', pt ++ '?' :: (query.data
          ++ '#' :: frag.data.filter (fun c => !(isUnsafeURLByte c))),
          by rw [hpd]; rfl, rfl⟩)]
      dsimp only
      rw [hfragSplit]
      dsimp only
      rw [splitOnceAt_concat '?' path.data query.data hpq]
      dsimp only
      rw [if_neg (fun hand => hpsemi hand.2)]
    have hunsplit : urlunparseChars
          ⟨scheme.data, host.data, path.data, [], query.data, []⟩
        = (scheme ++ "://" ++ host ++ path ++ "?" ++ query).data := by
      unfold urlunparseChars
      dsimp only
      rw [if_neg (show ¬(([] : List Char) ≠ []) by simp)]
      unfold urlunsplitChars
      dsimp only
      rw [if_neg (show ¬(path.data ≠ [] ∧ path.data.take 1 ≠ ['/'])
        from fun hand => hand.2 (by rw [hpd]; rfl))]
      rw [if_pos (Or.inl hhost0)]
      rw [if_pos (show scheme.data ≠ [] from by rw [hsd]; simp)]
      rw [if_pos hq0]
      rw [if_neg (show ¬(([] : List Char) ≠ []) by simp)]
      show scheme.data ++ ':' :: ('/' :: '/' :: (host.data ++ path.data)) ++ '?' :: query.data
        = (((((scheme.data ++ [':', '/', '/']) ++ host.data) ++ path.data)
          ++ ['?']) ++ query.data)
      simp
    show pyStrip (urldefragStr (scheme ++ "://" ++ host ++ path ++ "?" ++ query
      ++ "#" ++ frag)) = _
    unfold urldefragStr
    rw [if_pos hmem, hparse]
    show pyStrip (String.mk (urlunparseChars
      ⟨scheme.data, host.data, path.data, [], query.data, []⟩)) = _
    rw [hunsplit]

/-- Witness for the amended C7: a fragment-free URL, and a well-formed
absolute URL with a lowercase scheme, query string and fragment. -/
theorem normalize_url_amended_witness :
    normalize_url "https://a/b" = pyStrip "https://a/b" ∧
      normalize_url ("https" ++ "://" ++ "support.google.com" ++ "/youtube/answer/1"
          ++ "?" ++ "x=1" ++ "#" ++ "frag")
        = pyStrip ("https" ++ "://" ++ "support.google.com" ++ "/youtube/answer/1"
          ++ "?" ++ "x=1") :=
  ⟨normalize_url_amended.1 "https://a/b" (by decide),
   normalize_url_amended.2.1 "https" "support.google.com" "/youtube/answer/1" "x=1"
     "frag" 'h' "ttps".data "youtube/answer/1".data (by decide) (by decide) (by decide)
     (by decide) (by decide) (by decide) (by decide) (by decide) (by decide) (by decide)
     (by decide) (by decide) (by decide) (by decide) (by decide) (by decide)⟩

/-! ### Claim C8: the extracted title -/

/-- Claim C8: when the parsed document has no title element the extractor
returns the empty string, and when the first title element consists of a
single text node its trimmed text is returned. -/
theorem extract_title_spec (doc : List HNode) :
    (findTitleL doc = none → extract_title doc = "") ∧
      (∀ s : String,
        findTitleL doc = some (HNode.elem "title" [HNode.txt s]) →
        extract_title doc = pyStrip s) := by
  constructor
  · intro h
    unfold extract_title
    rw [h]
  · intro s h
    unfold extract_title
    rw [h]
    show getTextStrip (HNode.elem "title" [HNode.txt s]) = pyStrip s
    unfold getTextStrip
    by_cases hs : pyStrip s = ""
    · simp [stripsN, stripsL, hs, String.join]
    · simp [stripsN, stripsL, hs, String.join]

/-- Witness for C8: a document without a title element, and one whose title
element holds a single text node with surrounding whitespace. -/
theorem extract_title_spec_witness :
    extract_title [HNode.elem "body" [HNode.txt "x"]] = "" ∧
      extract_title [HNode.elem "head" [HNode.elem "title" [HNode.txt "  Hi  "]]]
        = pyStrip "  Hi  " := by
  constructor
  · exact (extract_title_spec _).1 (by simp [findTitleL, findTitleN])
  · exact (extract_title_spec _).2 "  Hi  " (by simp [findTitleL, findTitleN])

/-! ### Claim C9: end-to-end assembly of the concrete snapshot -/

/-- The concrete snapshot of the end-to-end example in the spec. -/
def dataC9 : SnapshotData :=
  ⟨some "https://support.google.com/youtube/answer/1",
   some "2024-01-01T00:00:00Z",
   some [⟨some "https://support.google.com/youtube/answer/1",
          some "Test Page", some "Body text."⟩]⟩

/-- Claim C9: the document built from the example snapshot contains the
table-of-contents line `- [Test Page](#test-page)`, and its body contains the
`## Test Page` heading immediately followed by the source line, a blank line,
and `Body text.`. -/
theorem build_md_end_to_end :
    "- [Test Page](#test-page)" ∈ buildLines dataC9 ∧
      ["## Test Page", "_Quelle_: https://support.google.com/youtube/answer/1",
        "", "Body text."] <:+: buildLines dataC9 := by
  constructor
  · decide
  · decide

/-! ### Claims C3 and C10: deduplication in the assembler -/

/-- Every page surviving deduplication has a nonempty URL. -/
theorem mem_dedupPages_url_ne :
    ∀ (ps : List BPage) (seen : List String) (q : BPage),
      q ∈ dedupPages ps seen → pageUrl q ≠ "" := by
  intro ps
  induction ps with
  | nil =>
    intro seen q hq
    simp [dedupPages] at hq
  | cons p ps ih =>
    intro seen q hq
    by_cases h : pageUrl p ≠ "" ∧ ¬ (pageUrl p ∈ seen)
    · rw [dedupPages, if_pos h] at hq
      rcases List.mem_cons.mp hq with hq | hq
      · rw [hq]
        exact h.1
      · exact ih _ _ hq
    · rw [dedupPages, if_neg h] at hq
      exact ih _ _ hq

/-- Once a URL is in the seen set, no later page with that URL survives
deduplication. -/
theorem dedupPages_filter_of_seen :
    ∀ (ps : List BPage) (seen : List String) (u : String), u ∈ seen →
      (dedupPages ps seen).filter (fun q => pageUrl q == u) = [] := by
  intro ps
  induction ps with
  | nil =>
    intro seen u _
    simp [dedupPages]
  | cons p ps ih =>
    intro seen u hu
    by_cases h : pageUrl p ≠ "" ∧ ¬ (pageUrl p ∈ seen)
    · rw [dedupPages, if_pos h]
      have hne : (pageUrl p == u) = false := by
        cases hb : pageUrl p == u with
        | false => rfl
        | true => exact absurd (beq_iff_eq.mp hb ▸ hu) h.2
      rw [List.filter_cons]
      simp only [hne, Bool.false_eq_true, if_false]
      exact ih _ _ (List.mem_cons_of_mem _ hu)
    · rw [dedupPages, if_neg h]
      exact ih _ _ hu

/-- For a URL not yet seen, the deduplicated list keeps exactly the first
matching page of the input (if any). -/
theorem dedupPages_filter_of_not_seen :
    ∀ (ps : List BPage) (seen : List String) (u : String), u ≠ "" → u ∉ seen →
      (dedupPages ps seen).filter (fun q => pageUrl q == u)
        = (ps.find? (fun q => pageUrl q == u)).toList := by
  intro ps
  induction ps with
  | nil =>
    intro seen u _ _
    simp [dedupPages]
  | cons p ps ih =>
    intro seen u hu hus
    by_cases hb : pageUrl p = u
    · have hcond : pageUrl p ≠ "" ∧ ¬ (pageUrl p ∈ seen) := ⟨hb ▸ hu, hb ▸ hus⟩
      have hpu : (pageUrl p == u) = true := beq_iff_eq.mpr hb
      rw [dedupPages, if_pos hcond, List.filter_cons]
      simp only [hpu, if_true]
      rw [dedupPages_filter_of_seen ps _ u (hb ▸ List.mem_cons_self _ _)]
      simp [List.find?, hpu]
    · have hpu : (pageUrl p == u) = false := by simp [hb]
      have hmem : u ∉ pageUrl p :: seen := by
        intro hmem
        rcases List.mem_cons.mp hmem with h | h
        · exact hb h.symm
        · exact hus h
      by_cases hcond : pageUrl p ≠ "" ∧ ¬ (pageUrl p ∈ seen)
      · rw [dedupPages, if_pos hcond, List.filter_cons]
        simp only [hpu, Bool.false_eq_true, if_false]
        rw [ih (pageUrl p :: seen) u hu hmem]
        simp [List.find?, hpu]
      · rw [dedupPages, if_neg hcond, ih seen u hu hus]
        simp [List.find?, hpu]

/-- Claim C3: when a snapshot's pages list has two or more entries sharing a
nonempty URL, the deduplicated list underlying the rendered document keeps
exactly the first occurrence of that URL (later occurrences are dropped, not
merged), and the document's table of contents and sections are generated from
that deduplicated list. -/
theorem build_md_dedup_keeps_first (data : SnapshotData) (u : String)
    (hu : u ≠ "")
    (h2 : 2 ≤ ((data.pages.getD []).countP (fun q => pageUrl q == u))) :
    ∃ p, (data.pages.getD []).find? (fun q => pageUrl q == u) = some p ∧
      (dedupPages (data.pages.getD []) []).filter (fun q => pageUrl q == u) = [p] ∧
      buildLines data = headerLines data
        ++ (dedupPages (data.pages.getD []) []).map tocEntry
        ++ ["", "---", ""]
        ++ (dedupPages (data.pages.getD []) []).flatMap sectionLines := by
  have hpos : 0 < (data.pages.getD []).countP (fun q => pageUrl q == u) := by omega
  have hex : ∃ q ∈ data.pages.getD [], (pageUrl q == u) = true :=
    List.countP_pos_iff.mp hpos
  have hsome : ((data.pages.getD []).find? (fun q => pageUrl q == u)).isSome :=
    List.find?_isSome.mpr hex
  rcases Option.isSome_iff_exists.mp hsome with ⟨p, hp⟩
  refine ⟨p, hp, ?_, rfl⟩
  rw [dedupPages_filter_of_not_seen (data.pages.getD []) [] u hu (by simp), hp]
  rfl

/-- Witness snapshot for C3: two pages with the same URL and different
text. -/
def dataC3 : SnapshotData :=
  ⟨none, none,
   some [⟨some "u", some "A", some "first"⟩, ⟨some "u", some "B", some "second"⟩]⟩

/-- Witness for C3 on `dataC3`. -/
theorem build_md_dedup_keeps_first_witness :
    ∃ p, (dataC3.pages.getD []).find? (fun q => pageUrl q == "u") = some p ∧
      (dedupPages (dataC3.pages.getD []) []).filter (fun q => pageUrl q == "u") = [p] ∧
      buildLines dataC3 = headerLines dataC3
        ++ (dedupPages (dataC3.pages.getD []) []).map tocEntry
        ++ ["", "---", ""]
        ++ (dedupPages (dataC3.pages.getD []) []).flatMap sectionLines :=
  build_md_dedup_keeps_first dataC3 "u" (by decide) (by decide)

/-- Claim C10: a page record whose `url` key is missing or empty is dropped
entirely by the assembler — it never survives deduplication (hence produces
no table-of-contents entry and no section), and a snapshot holding only such
a page renders identically to a snapshot with no pages at all. -/
theorem build_md_drops_empty_url :
    (∀ (ps : List BPage) (q : BPage), q ∈ dedupPages ps [] → pageUrl q ≠ "") ∧
      (∀ (s f : Option String) (p : BPage), pageUrl p = "" →
        build_md ⟨s, f, some [p]⟩ = build_md ⟨s, f, some []⟩) := by
  constructor
  · intro ps q hq
    exact mem_dedupPages_url_ne ps [] q hq
  · intro s f p hp
    unfold build_md buildLines
    simp [dedupPages, hp, headerLines]

/-- Witness for C10: a kept page with a nonempty URL, and a snapshot whose
only page has an empty URL rendering like the empty snapshot. -/
theorem build_md_drops_empty_url_witness :
    pageUrl ⟨some "u", some "T", some "x"⟩ ≠ "" ∧
      build_md ⟨none, none, some [⟨some "", some "Only", some "body"⟩]⟩
        = build_md ⟨none, none, some []⟩ :=
  ⟨build_md_drops_empty_url.1 [⟨some "u", some "T", some "x"⟩] _ (by decide),
   build_md_drops_empty_url.2 none none _ rfl⟩

/-! ### Claims C1, C2, C5: invariants of the crawl loop -/

/-- Combined step invariant of the crawl loop: the requested-URL list stays
duplicate-free, the emitted pages carry pairwise distinct URLs, the page
count stays within the ceiling, and every requested URL and every emitted
page passed the host filter.  The visited set `seen` dominates both the
request list and the page URLs, which is what makes the dequeue-time check
sufficient. -/
theorem crawlLoop_inv (fetch : String → Option FetchResult)
    (allowed cand robots : String → Bool) (maxPages : Nat) :
    ∀ (fuel : Nat) (queue seen : List String) (pages : List CPage)
      (fetched : List String),
      fetched.Nodup →
      (∀ u ∈ fetched, u ∈ seen) →
      ((pages.map CPage.url).Nodup) →
      (∀ p ∈ pages, p.url ∈ seen) →
      pages.length ≤ maxPages →
      (∀ u ∈ fetched, allowed u = true) →
      (∀ p ∈ pages, allowed p.url = true) →
      (crawlLoop fetch allowed cand robots maxPages fuel queue seen pages
          fetched).fetched.Nodup ∧
      ((crawlLoop fetch allowed cand robots maxPages fuel queue seen pages
          fetched).pages.map CPage.url).Nodup ∧
      (crawlLoop fetch allowed cand robots maxPages fuel queue seen pages
          fetched).pages.length ≤ maxPages ∧
      (∀ u ∈ (crawlLoop fetch allowed cand robots maxPages fuel queue seen pages
          fetched).fetched, allowed u = true) ∧
      (∀ p ∈ (crawlLoop fetch allowed cand robots maxPages fuel queue seen pages
          fetched).pages, allowed p.url = true) := by
  intro fuel
  induction fuel with
  | zero =>
    intro queue seen pages fetched h1 h2 h3 h4 h5 h6 h7
    simp only [crawlLoop]
    exact ⟨h1, h3, h5, h6, h7⟩
  | succ n ih =>
    intro queue seen pages fetched h1 h2 h3 h4 h5 h6 h7
    cases queue with
    | nil =>
      simp only [crawlLoop]
      exact ⟨h1, h3, h5, h6, h7⟩
    | cons url rest =>
      simp only [crawlLoop]
      by_cases hmax : maxPages ≤ pages.length
      · rw [if_pos hmax]
        exact ⟨h1, h3, h5, h6, h7⟩
      · rw [if_neg hmax]
        by_cases hseen : url ∈ seen
        · rw [if_pos hseen]
          exact ih rest seen pages fetched h1 h2 h3 h4 h5 h6 h7
        · rw [if_neg hseen]
          have h2c : ∀ u ∈ fetched, u ∈ url :: seen :=
            fun u hu => List.mem_cons_of_mem _ (h2 u hu)
          have h4c : ∀ p ∈ pages, p.url ∈ url :: seen :=
            fun p hp => List.mem_cons_of_mem _ (h4 p hp)
          by_cases hall : allowed url = true
          · rw [if_pos hall]
            by_cases hcand : cand url = true
            · rw [if_pos hcand]
              by_cases hrob : robots url = true
              · rw [if_pos hrob]
                have hnf : url ∉ fetched := fun hmem => hseen (h2 url hmem)
                have hfn : (fetched ++ [url]).Nodup := by
                  rw [List.nodup_append]
                  exact ⟨h1, List.nodup_singleton _,
                    fun a ha hb => hnf (List.mem_singleton.mp hb ▸ ha)⟩
                have h6n : ∀ u ∈ fetched ++ [url], allowed u = true := by
                  intro u hu
                  rcases List.mem_append.mp hu with hu | hu
                  · exact h6 u hu
                  · rw [List.mem_singleton.mp hu]
                    exact hall
                have h2n : ∀ u ∈ fetched ++ [url], u ∈ url :: seen := by
                  intro u hu
                  rcases List.mem_append.mp hu with hu | hu
                  · exact List.mem_cons_of_mem _ (h2 u hu)
                  · rw [List.mem_singleton.mp hu]
                    exact List.mem_cons_self _ _
                cases hf : fetch url with
                | none =>
                  exact ih rest (url :: seen) pages (fetched ++ [url])
                    hfn h2n h3 h4c h5 h6n h7
                | some r =>
                  have hnp : url ∉ pages.map CPage.url := by
                    intro hmem
                    rcases List.mem_map.mp hmem with ⟨p, hp, hpu⟩
                    exact hseen (hpu ▸ h4 p hp)
                  have h3n : ((pages ++ [CPage.mk url r.title r.text]).map CPage.url).Nodup := by
                    rw [List.map_append, List.nodup_append]
                    exact ⟨h3, List.nodup_singleton _,
                      fun a ha hb => hnp ((show a = url from List.mem_singleton.mp hb) ▸ ha)⟩
                  have h4n : ∀ p ∈ pages ++ [CPage.mk url r.title r.text],
                      p.url ∈ url :: seen := by
                    intro p hp
                    rcases List.mem_append.mp hp with hp | hp
                    · exact List.mem_cons_of_mem _ (h4 p hp)
                    · rw [List.mem_singleton.mp hp]
                      exact List.mem_cons_self _ _
                  have h5n : (pages ++ [CPage.mk url r.title r.text]).length ≤ maxPages := by
                    rw [List.length_append]
                    simp only [List.length_singleton]
                    omega
                  have h7n : ∀ p ∈ pages ++ [CPage.mk url r.title r.text],
                      allowed p.url = true := by
                    intro p hp
                    rcases List.mem_append.mp hp with hp | hp
                    · exact h7 p hp
                    · rw [List.mem_singleton.mp hp]
                      exact hall
                  exact ih _ (url :: seen) _ (fetched ++ [url])
                    hfn h2n h3n h4n h5n h6n h7n
              · rw [if_neg hrob]
                exact ih rest (url :: seen) pages fetched h1 h2c h3 h4c h5 h6 h7
            · rw [if_neg hcand]
              exact ih rest (url :: seen) pages fetched h1 h2c h3 h4c h5 h6 h7
          · rw [if_neg hall]
            exact ih rest (url :: seen) pages fetched h1 h2c h3 h4c h5 h6 h7

/-- Claim C1: in every crawl run (any fetch and robots oracles, any seed,
ceiling, allow-list and fuel), every normalized URL is requested at most once
and the URLs of the emitted pages are pairwise distinct. -/
theorem crawl_pages_urls_nodup (fetch : String → Option FetchResult)
    (robots : String → Bool) (start_url : String) (maxPages : Nat)
    (hosts : List String) (fuel : Nat) :
    (crawl fetch robots start_url maxPages hosts fuel).fetched.Nodup ∧
      ((crawl fetch robots start_url maxPages hosts fuel).pages.map
        CPage.url).Nodup := by
  have h := crawlLoop_inv fetch (fun u => same_host u hosts)
    is_probably_policy_page robots maxPages fuel [normalize_url start_url] [] [] []
    List.nodup_nil (by simp) List.nodup_nil (by simp) (by simp) (by simp) (by simp)
  exact ⟨h.1, h.2.1⟩

/-- Claim C2: with page ceiling `maxPages`, the crawl's emitted pages list
has length at most `maxPages`, whatever remains in the frontier. -/
theorem crawl_pages_length_le (fetch : String → Option FetchResult)
    (robots : String → Bool) (start_url : String) (maxPages : Nat)
    (hosts : List String) (fuel : Nat) :
    (crawl fetch robots start_url maxPages hosts fuel).pages.length ≤ maxPages := by
  have h := crawlLoop_inv fetch (fun u => same_host u hosts)
    is_probably_policy_page robots maxPages fuel [normalize_url start_url] [] [] []
    List.nodup_nil (by simp) List.nodup_nil (by simp) (by simp) (by simp) (by simp)
  exact h.2.2.1

/-- Claim C5: a URL whose host is not in the allowed set is never requested
and never appears as an emitted page URL, even if it entered the frontier via
a link from an allowed page (the fetch oracle may return arbitrary links). -/
theorem crawl_disallowed_host_excluded (fetch : String → Option FetchResult)
    (robots : String → Bool) (start_url : String) (maxPages : Nat)
    (hosts : List String) (fuel : Nat) (u : String)
    (h : same_host u hosts = false) :
    u ∉ (crawl fetch robots start_url maxPages hosts fuel).fetched ∧
      ∀ p ∈ (crawl fetch robots start_url maxPages hosts fuel).pages,
        p.url ≠ u := by
  have hinv := crawlLoop_inv fetch (fun u => same_host u hosts)
    is_probably_policy_page robots maxPages fuel [normalize_url start_url] [] [] []
    List.nodup_nil (by simp) List.nodup_nil (by simp) (by simp) (by simp) (by simp)
  constructor
  · intro hmem
    have ht : same_host u hosts = true := hinv.2.2.2.1 u hmem
    rw [h] at ht
    exact Bool.false_ne_true ht
  · intro p hp hpu
    have ht : same_host p.url hosts = true := hinv.2.2.2.2 p hp
    rw [hpu, h] at ht
    exact Bool.false_ne_true ht

/-- Witness for C5: a concrete crawl from an allowed seed, with a fetch
oracle linking to a disallowed host; that host is never requested. -/
theorem crawl_disallowed_host_excluded_witness :
    "http://evil.com/" ∉ (crawl (fun _ => some ⟨"T", "x", ["http://evil.com/"]⟩)
      (fun _ => true) "http://youtube.com/creators/" 5 ["youtube.com"] 3).fetched :=
  (crawl_disallowed_host_excluded (fun _ => some ⟨"T", "x", ["http://evil.com/"]⟩)
    (fun _ => true) "http://youtube.com/creators/" 5 ["youtube.com"] 3
    "http://evil.com/" (by decide)).1

end YT
